import Mathlib

/-!
Shallow embedding of `publish.py` (fiaas/publish): tag validation, changelog
generation, changelog formatting and the release orchestration, together with
theorems settling the specification claims.

Conventions of the embedding:
* Python strings are Lean `String`s (a `String` is a list of characters here).
* The Python regular expressions `^v\d+(\.\d+){0,2}$` and `#(\d+)` are embedded
  as character-list scanners with maximal-munch digit runs, which coincides with
  the regex engine's behaviour on these patterns.
* Python dicts (insertion ordered, value replaced in place on re-insert) are
  embedded as association lists with an insert-or-replace operation.
* git is modelled by a commit DAG: commits are listed oldest-first, a parent
  always has a smaller index than its child, and `git rev-list A..B` enumerates,
  newest first, the commits reachable from `B` but not from `A`.
-/

namespace Publish

/-- A digit run: the `\d+` atom of `RELEASE_TAG_PATTERN` (maximal munch; the
following regex token is a literal `.` or end-of-string, so maximal munch is
exactly the regex engine's behaviour). `none` when no digit is present. -/
def parseNum (l : List Char) : Option (List Char) :=
  if (l.takeWhile Char.isDigit).isEmpty then none
  else some (l.dropWhile Char.isDigit)

/-- The `(\.\d+){0,2}$` tail of `RELEASE_TAG_PATTERN`: up to `k` further
`.`-prefixed digit runs, then end of string. -/
def matchDotNums : Nat → List Char → Bool
  | _, [] => true
  | 0, _ :: _ => false
  | k + 1, c :: rest =>
    if c = '.' then
      match parseNum rest with
      | some r => matchDotNums k r
      | none => false
    else false

/-- `Repository.RELEASE_TAG_PATTERN = re.compile(r"^v\d+(\.\d+){0,2}$")`,
applied with `re.match` (anchored). -/
def matchTagPattern (s : String) : Bool :=
  match s.toList with
  | [] => false
  | c :: rest =>
    if c = 'v' then
      match parseNum rest with
      | some r => matchDotNums 2 r
      | none => false
    else false

/-- Split a character list at every `'.'` (the "dot-separated components" of the
specification; `splitDots l` always has one more group than `l` has dots). -/
def splitDots : List Char → List (List Char)
  | [] => [[]]
  | c :: rest =>
    if c = '.' then [] :: splitDots rest
    else
      match splitDots rest with
      | [] => [[c]]
      | g :: gs => (c :: g) :: gs

/-- A component as the claim words it: either `0` or a digit string beginning
with a non-zero digit (no leading zeros). -/
def specStrictComponent (p : List Char) : Bool :=
  p == ['0'] || (!p.isEmpty && p.all Char.isDigit && !(p.head? == some '0'))

/-- The tag shape asserted by the claim, written from the claim's words: `v`
followed by 1 to 3 dot-separated components, each `0` or with no leading zero. -/
def specStrictTag (s : String) : Bool :=
  match s.toList with
  | [] => false
  | c :: rest =>
    if c = 'v' then
      let parts := splitDots rest
      decide (1 ≤ parts.length) && decide (parts.length ≤ 3) && parts.all specStrictComponent
    else false

/-- A component as the source actually accepts it: any non-empty digit string
(leading zeros permitted). -/
def amendedComponent (p : List Char) : Bool :=
  !p.isEmpty && p.all Char.isDigit

/-- The amended tag shape: `v` followed by 1 to 3 dot-separated non-empty digit
strings, with no restriction on leading zeros. -/
def amendedTag (s : String) : Bool :=
  match s.toList with
  | [] => false
  | c :: rest =>
    if c = 'v' then
      let parts := splitDots rest
      decide (1 ≤ parts.length) && decide (parts.length ≤ 3) && parts.all amendedComponent
    else false

/-- The result of `repo.rev_parse(repo.git.describe(all=True))` as
`Repository.current_tag` sees it: an annotated tag is a tag object carrying the
tag name (`.tag`) and its target commit; a lightweight tag (or any other
describable state) resolves to a plain commit object, which has no `.tag`
attribute. -/
inductive GitObject where
  | tagObj (name : String) (target : Nat)
  | commitObj (idx : Nat)
deriving DecidableEq

/-- The checkout state consulted by `Repository.ready_for_release`:
`repo.is_dirty()`, `repo.untracked_files`, and the resolved current tag
(`none` when `describe`/`rev_parse` raised `BadName`/`GitCommandError`). -/
structure RepoState where
  dirty : Bool
  untracked : List String
  currentTag : Option GitObject
deriving DecidableEq

/-- `str.join` (Python), used for `"\n".join(output)`, `"\n\t".join(file_list)`
and `" ".join(...)`. -/
def joinWith (sep : String) : List String → String
  | [] => ""
  | [a] => a
  | a :: b :: rest => a ++ sep ++ joinWith sep (b :: rest)

/-- `Repository.ready_for_release`, returning the boolean result together with
the diagnostic lines printed on the way. The `AttributeError` raised by
`self.current_tag.tag` on a plain commit object (lightweight tag) is the
`commitObj` branch. -/
def readyForRelease (force : Bool) (st : RepoState) : Bool × List String :=
  if force then (true, [])
  else if st.dirty then (false, ["Repository is dirty"])
  else if !st.untracked.isEmpty then
    (false, ["Repository has untracked files:\n\t" ++ joinWith "\n\t" st.untracked])
  else
    match st.currentTag with
    | none => (false, ["No tag found"])
    | some (.tagObj name _) =>
      if matchTagPattern name then (true, [])
      else (false, ["Tag " ++ name ++ " is not a valid release tag"])
    | some (.commitObj _) => (false, ["Unable to read tag name"])

/-! ### Facts about the tag pattern -/

/-- First character of a digit run, `false` on the empty list. -/
def headDigit : List Char → Bool
  | [] => false
  | c :: _ => c.isDigit

theorem length_dropWhile_digits_le (l : List Char) :
    (l.dropWhile Char.isDigit).length ≤ l.length := by
  induction l with
  | nil => simp
  | cons c rest ih =>
    rw [List.dropWhile_cons]
    split
    · exact Nat.le_trans ih (Nat.le_succ _)
    · simp

theorem headDigit_dropWhile (l : List Char) :
    headDigit (l.dropWhile Char.isDigit) = false := by
  induction l with
  | nil => simp [headDigit]
  | cons c rest ih =>
    rw [List.dropWhile_cons]
    split
    · exact ih
    · simp_all [headDigit]

theorem splitDots_ne_nil (l : List Char) : splitDots l ≠ [] := by
  cases l with
  | nil => simp [splitDots]
  | cons c rest =>
    rw [splitDots]
    split
    · simp
    · split <;> simp

theorem splitDots_digits_append (ds : List Char) (m : List Char) (g : List Char)
    (gs : List (List Char)) (hds : ∀ c ∈ ds, c ≠ '.')
    (hm : splitDots m = g :: gs) : splitDots (ds ++ m) = (ds ++ g) :: gs := by
  induction ds with
  | nil => simpa using hm
  | cons c ds ih =>
    have hc : c ≠ '.' := hds c (by simp)
    have ih' := ih (fun x hx => hds x (by simp [hx]))
    rw [List.cons_append, splitDots]
    rw [if_neg hc, ih']
    simp

theorem matchDotNums_eq_amended : ∀ n, ∀ l : List Char, l.length ≤ n → ∀ k : Nat,
    (match parseNum l with
     | some r => matchDotNums k r
     | none => false)
      = (decide ((splitDots l).length ≤ k + 1) && (splitDots l).all amendedComponent) := by
  intro n
  induction n with
  | zero =>
    intro l hl k
    have hnil : l = [] := List.eq_nil_of_length_eq_zero (Nat.le_zero.mp hl)
    subst hnil
    simp [parseNum, splitDots, amendedComponent]
  | succ n ih =>
    intro l hl k
    cases l with
    | nil => simp [parseNum, splitDots, amendedComponent]
    | cons c rest =>
      by_cases hc : c.isDigit
      · -- leading digit: the maximal digit run is `c :: rest.takeWhile isDigit`
        have key : ∀ ds m : List Char, ds ≠ [] → (∀ x ∈ ds, x.isDigit = true) →
            headDigit m = false → m.length ≤ n →
            matchDotNums k m
              = (decide ((splitDots (ds ++ m)).length ≤ k + 1)
                  && (splitDots (ds ++ m)).all amendedComponent) := by
          intro ds m hne hall hhead hmlen
          have hnodot : ∀ x ∈ ds, x ≠ '.' := by
            intro x hx hdot
            have := hall x hx
            rw [hdot] at this
            simp at this
          have hcomp : amendedComponent ds = true := by
            rw [amendedComponent]
            simp only [Bool.and_eq_true, List.all_eq_true]
            exact ⟨by simpa using hne, hall⟩
          cases hm : m with
          | nil =>
            rw [splitDots_digits_append ds [] [] [] hnodot (by rw [splitDots])]
            simp [matchDotNums, hcomp, Nat.succ_le_succ (Nat.zero_le k)]
          | cons c' r =>
            rw [hm] at hhead hmlen
            by_cases hc' : c' = '.'
            · subst hc'
              obtain ⟨g, gs, hggs⟩ : ∃ g gs, splitDots r = g :: gs := by
                cases hr : splitDots r with
                | nil => exact absurd hr (splitDots_ne_nil r)
                | cons g gs => exact ⟨g, gs, rfl⟩
              have hsd : splitDots ('.' :: r) = [] :: splitDots r := by
                rw [splitDots, if_pos rfl]
              have hfull : splitDots (ds ++ '.' :: r) = ds :: splitDots r := by
                rw [splitDots_digits_append ds _ [] (splitDots r) hnodot hsd,
                  List.append_nil]
              rw [hfull]
              cases k with
              | zero =>
                have hlen : ¬((ds :: splitDots r).length ≤ 0 + 1) := by
                  simp only [List.length_cons]
                  have : 1 ≤ (splitDots r).length := by rw [hggs]; simp
                  omega
                have hdec : decide ((ds :: splitDots r).length ≤ 0 + 1) = false :=
                  decide_eq_false hlen
                show false = _
                rw [hdec, Bool.false_and]
              | succ j =>
                have hr_len : r.length ≤ n := by
                  simp only [List.length_cons] at hmlen
                  omega
                have hih := ih r hr_len j
                rw [matchDotNums, if_pos rfl, hih]
                simp only [List.length_cons, List.all_cons, hcomp, Bool.true_and]
                congr 1
                simp only [decide_eq_decide]
                omega
            · have hc'd : c'.isDigit = false := by simpa [headDigit] using hhead
              obtain ⟨g, gs, hggs⟩ : ∃ g gs, splitDots (c' :: r) = (c' :: g) :: gs := by
                rw [splitDots, if_neg hc']
                cases hr : splitDots r with
                | nil => exact absurd hr (splitDots_ne_nil r)
                | cons g gs => exact ⟨g, gs, rfl⟩
              have hfull : splitDots (ds ++ c' :: r) = (ds ++ c' :: g) :: gs :=
                splitDots_digits_append ds _ (c' :: g) gs hnodot hggs
              have hbad : amendedComponent (ds ++ c' :: g) = false := by
                rw [amendedComponent, Bool.and_eq_false_iff]
                right
                rw [Bool.eq_false_iff]
                intro hall2
                rw [List.all_eq_true] at hall2
                have := hall2 c' (by simp)
                rw [hc'd] at this
                exact Bool.false_ne_true this
              have hlhs : matchDotNums k (c' :: r) = false := by
                cases k with
                | zero => rw [matchDotNums]
                | succ j => rw [matchDotNums, if_neg hc']
              rw [hfull, hlhs]
              simp [hbad]
        have hdsne : (c :: rest.takeWhile Char.isDigit : List Char) ≠ [] := by simp
        have hall : ∀ x ∈ (c :: rest.takeWhile Char.isDigit : List Char), x.isDigit = true := by
          intro x hx
          rcases List.mem_cons.mp hx with h | h
          · rw [h]; exact hc
          · exact List.mem_takeWhile_imp h
        have hmlen : (rest.dropWhile Char.isDigit).length ≤ n := by
          have h1 := length_dropWhile_digits_le rest
          simp only [List.length_cons] at hl
          omega
        have hky := key (c :: rest.takeWhile Char.isDigit) (rest.dropWhile Char.isDigit)
          hdsne hall (headDigit_dropWhile rest) hmlen
        have hsplit : (c :: rest.takeWhile Char.isDigit : List Char)
            ++ rest.dropWhile Char.isDigit = c :: rest := by
          rw [List.cons_append, List.takeWhile_append_dropWhile]
        rw [hsplit] at hky
        have hparse : parseNum (c :: rest) = some (rest.dropWhile Char.isDigit) := by
          rw [parseNum, List.takeWhile_cons, if_pos hc, List.dropWhile_cons, if_pos hc]
          simp
        rw [hparse]
        exact hky
      · -- no leading digit: `\d+` fails, and the first component is not numeric
        have hparse : parseNum (c :: rest) = none := by
          rw [parseNum, List.takeWhile_cons]
          simp [hc]
        rw [hparse]
        by_cases hdot : c = '.'
        · subst hdot
          rw [show splitDots ('.' :: rest) = [] :: splitDots rest by
            rw [splitDots, if_pos rfl]]
          simp [amendedComponent]
        · obtain ⟨g, gs, hggs⟩ : ∃ g gs, splitDots (c :: rest) = (c :: g) :: gs := by
            rw [splitDots, if_neg hdot]
            cases hr : splitDots rest with
            | nil => exact absurd hr (splitDots_ne_nil rest)
            | cons g gs => exact ⟨g, gs, rfl⟩
          rw [hggs]
          have hbad : amendedComponent (c :: g) = false := by
            rw [amendedComponent, Bool.and_eq_false_iff]
            right
            rw [Bool.eq_false_iff]
            intro hall2
            rw [List.all_eq_true] at hall2
            exact hc (hall2 c (by simp))
          simp [hbad]

theorem matchTagPattern_eq_amendedTag (s : String) : matchTagPattern s = amendedTag s := by
  unfold matchTagPattern amendedTag
  cases hs : s.toList with
  | nil => rfl
  | cons c rest =>
    show (if c = 'v' then
            (match parseNum rest with
             | some r => matchDotNums 2 r
             | none => false)
          else false)
        = (if c = 'v' then
            (decide (1 ≤ (splitDots rest).length) && decide ((splitDots rest).length ≤ 3)
              && (splitDots rest).all amendedComponent)
          else false)
    by_cases hv : c = 'v'
    · rw [if_pos hv, if_pos hv]
      rw [matchDotNums_eq_amended rest.length rest (Nat.le_refl _) 2]
      have h1 : decide (1 ≤ (splitDots rest).length) = true := by
        apply decide_eq_true
        cases hr : splitDots rest with
        | nil => exact absurd hr (splitDots_ne_nil rest)
        | cons g gs => simp
      rw [h1, Bool.true_and]
    · rw [if_neg hv, if_neg hv]

/-- C1 counterexample: the tag-pattern check of the source accepts `"v1.02"`
(`\d+` places no restriction on leading zeros), while the claim's strict shape
— each component `0` or starting with a non-zero digit — rejects it, so the
claimed equivalence fails at `"v1.02"`. -/
theorem release_tag_pattern_cex :
    matchTagPattern "v1.02" = true ∧ specStrictTag "v1.02" = false := by
  exact ⟨by decide, by decide⟩

/-- C1 (amended): the validator's tag-pattern check accepts a string iff it is
`v` followed by 1 to 3 dot-separated non-empty digit strings, with leading
zeros permitted; in particular `v1`, `v1.2`, `v1.2.3`, `v0.0.1` and also
`v1.02` are accepted, while `1.2.3`, `v1.2.3.4`, `version1` are rejected. On a
clean checkout at an annotated tag, `ready_for_release` returns exactly the
pattern check's verdict on the tag name. -/
theorem release_tag_pattern_amended :
    (∀ s : String, matchTagPattern s = amendedTag s)
    ∧ (∀ name target,
        (readyForRelease false ⟨false, [], some (.tagObj name target)⟩).1
          = matchTagPattern name)
    ∧ matchTagPattern "v1" = true ∧ matchTagPattern "v1.2" = true
    ∧ matchTagPattern "v1.2.3" = true ∧ matchTagPattern "v0.0.1" = true
    ∧ matchTagPattern "v1.02" = true
    ∧ matchTagPattern "1.2.3" = false ∧ matchTagPattern "v1.2.3.4" = false
    ∧ matchTagPattern "version1" = false := by
  refine ⟨matchTagPattern_eq_amendedTag, ?_, by decide, by decide, by decide, by decide,
    by decide, by decide, by decide, by decide⟩
  intro name target
  cases h : matchTagPattern name <;> simp [readyForRelease, h]

/-! ### C2 and C10: force flag and lightweight tags -/

/-- C2 counterexample: with `force=true`, `ready_for_release` returns `True`
immediately even though the current state resolves to a tag whose name fails
the release pattern (`"not-a-version"`), contradicting the claim that the
tag-resolution and tag-name checks are still performed under `force`. -/
theorem force_bypasses_tag_check_cex :
    (readyForRelease true ⟨false, [], some (.tagObj "not-a-version" 0)⟩).1 = true
    ∧ matchTagPattern "not-a-version" = false
    ∧ (readyForRelease false ⟨false, [], some (.tagObj "not-a-version" 0)⟩).1 = false := by
  exact ⟨rfl, by decide, by decide⟩

/-- C2 (amended): when `force` is set, `ready_for_release` returns `True`
immediately, skipping every check — the dirty and untracked checks, tag
resolution and the tag-name pattern check alike — and prints nothing. -/
theorem force_skips_all_checks :
    ∀ st : RepoState, readyForRelease true st = (true, []) := by
  intro st
  rfl

/-- C10: when the current checkout resolves to a plain commit object — which is
what `rev_parse` yields for a lightweight tag, whatever the tag's name — then
`ready_for_release` with `force=false` returns `False` without raising (the
`AttributeError` from `.tag` is caught); on a clean checkout the diagnostic is
exactly "Unable to read tag name". -/
theorem lightweight_tag_rejected (st : RepoState) (idx : Nat)
    (h : st.currentTag = some (.commitObj idx)) :
    (readyForRelease false st).1 = false
    ∧ (st.dirty = false → st.untracked = [] →
        readyForRelease false st = (false, ["Unable to read tag name"])) := by
  obtain ⟨d, u, t⟩ := st
  simp only at h
  subst h
  constructor
  · cases d
    · cases u with
      | nil => rfl
      | cons a us => rfl
    · rfl
  · intro hd hu
    simp only at hd hu
    subst hd
    subst hu
    rfl

/-- Witness for C10 at a concrete state. -/
theorem lightweight_tag_rejected_witness :
    (readyForRelease false ⟨false, [], some (.commitObj 7)⟩).1 = false
    ∧ readyForRelease false ⟨false, [], some (.commitObj 7)⟩
        = (false, ["Unable to read tag name"]) := by
  have h := lightweight_tag_rejected ⟨false, [], some (.commitObj 7)⟩ 7 rfl
  exact ⟨h.1, h.2 rfl rfl⟩

/-! ### The changelog formatters -/

/-- The module-level `CHANGELOG_HEADER` literal (note: it begins with a
newline). -/
def CHANGELOG_HEADER : String :=
  "\nChanges since last version\n--------------------------\n\n"

/-- Python `str.splitlines(False)` restricted to `\n` separators (the only
line separator occurring in this program's strings): split at every newline,
keeping no end-of-line characters and producing no entry after a final
newline. -/
def splitlinesList : List Char → List (List Char)
  | [] => []
  | c :: rest =>
    if c = '\n' then [] :: splitlinesList rest
    else
      match splitlinesList rest with
      | [] => [[c]]
      | g :: gs => (c :: g) :: gs

/-- `str.splitlines(False)` on a `String`. -/
def splitlines (s : String) : List String :=
  (splitlinesList s.data).map String.mk

/-- `CHANGELOG_HEADER.splitlines(False)`: the first element is the empty line
coming from the leading newline of the literal. -/
def headerLines : List String := splitlines CHANGELOG_HEADER

/-- The backquote character used by the reST cross-reference markup. -/
def backquote : Char := Char.ofNat 96

/-- The scan of `ISSUE_NUMBER.sub(r"`#\1`_", summary)`, with explicit recursion
fuel (any fuel at least the list length gives the scan's value; the wrapper
`subIssueList` below passes the length — see `subIssueList_cons`). Every
occurrence of the pattern `#(\d+)` (a hash sign followed by a maximal non-empty
digit run) is rewritten into the cross-reference markup (backquote, the matched
text, backquote, underscore); every other character is kept unchanged. -/
def subIssueGo : Nat → List Char → List Char
  | _, [] => []
  | 0, _ :: _ => []
  | fuel + 1, c :: rest =>
    if c = '#' then
      if (rest.takeWhile Char.isDigit).isEmpty then '#' :: subIssueGo fuel rest
      else
        backquote :: '#' :: (rest.takeWhile Char.isDigit
          ++ backquote :: '_' :: subIssueGo fuel (rest.dropWhile Char.isDigit))
    else c :: subIssueGo fuel rest

/-- `ISSUE_NUMBER.sub` on a character list. -/
def subIssueList (l : List Char) : List Char := subIssueGo l.length l

/-- The group captures of `ISSUE_NUMBER.finditer(summary)`, left to right,
with explicit recursion fuel (see `issueNumsList_cons`). -/
def issueNumsGo : Nat → List Char → List (List Char)
  | _, [] => []
  | 0, _ :: _ => []
  | fuel + 1, c :: rest =>
    if c = '#' then
      if (rest.takeWhile Char.isDigit).isEmpty then issueNumsGo fuel rest
      else rest.takeWhile Char.isDigit :: issueNumsGo fuel (rest.dropWhile Char.isDigit)
    else issueNumsGo fuel rest

/-- `ISSUE_NUMBER.finditer` group captures on a character list. -/
def issueNumsList (l : List Char) : List (List Char) := issueNumsGo l.length l

theorem subIssueGo_congr : ∀ fuel : Nat, ∀ fuel' : Nat, ∀ l : List Char,
    l.length ≤ fuel → l.length ≤ fuel' → subIssueGo fuel l = subIssueGo fuel' l := by
  intro fuel
  induction fuel with
  | zero =>
    intro fuel' l hl _
    have hnil : l = [] := List.eq_nil_of_length_eq_zero (Nat.le_zero.mp hl)
    subst hnil
    cases fuel' <;> rfl
  | succ n ih =>
    intro fuel' l hl hl'
    cases l with
    | nil => cases fuel' <;> rfl
    | cons c rest =>
      cases fuel' with
      | zero => simp at hl'
      | succ m =>
        simp only [List.length_cons, Nat.succ_le_succ_iff] at hl hl'
        have hdw := length_dropWhile_digits_le rest
        rw [subIssueGo, subIssueGo]
        rw [ih m rest hl hl', ih m (rest.dropWhile Char.isDigit)
          (Nat.le_trans hdw hl) (Nat.le_trans hdw hl')]

/-- The unfolding equation of `subIssueList` on a non-empty list. -/
theorem subIssueList_cons (c : Char) (rest : List Char) :
    subIssueList (c :: rest)
      = (if c = '#' then
          if (rest.takeWhile Char.isDigit).isEmpty then '#' :: subIssueList rest
          else
            backquote :: '#' :: (rest.takeWhile Char.isDigit
              ++ backquote :: '_' :: subIssueList (rest.dropWhile Char.isDigit))
        else c :: subIssueList rest) := by
  have hdw := length_dropWhile_digits_le rest
  rw [subIssueList, List.length_cons, subIssueGo]
  rw [subIssueGo_congr rest.length rest.length rest (Nat.le_refl _) (Nat.le_refl _)]
  rw [show subIssueGo rest.length (rest.dropWhile Char.isDigit)
      = subIssueGo (rest.dropWhile Char.isDigit).length (rest.dropWhile Char.isDigit)
    from subIssueGo_congr _ _ _ hdw (Nat.le_refl _)]
  rfl

theorem issueNumsGo_congr : ∀ fuel : Nat, ∀ fuel' : Nat, ∀ l : List Char,
    l.length ≤ fuel → l.length ≤ fuel' → issueNumsGo fuel l = issueNumsGo fuel' l := by
  intro fuel
  induction fuel with
  | zero =>
    intro fuel' l hl _
    have hnil : l = [] := List.eq_nil_of_length_eq_zero (Nat.le_zero.mp hl)
    subst hnil
    cases fuel' <;> rfl
  | succ n ih =>
    intro fuel' l hl hl'
    cases l with
    | nil => cases fuel' <;> rfl
    | cons c rest =>
      cases fuel' with
      | zero => simp at hl'
      | succ m =>
        simp only [List.length_cons, Nat.succ_le_succ_iff] at hl hl'
        have hdw := length_dropWhile_digits_le rest
        rw [issueNumsGo, issueNumsGo]
        rw [ih m rest hl hl', ih m (rest.dropWhile Char.isDigit)
          (Nat.le_trans hdw hl) (Nat.le_trans hdw hl')]

/-- The unfolding equation of `issueNumsList` on a non-empty list. -/
theorem issueNumsList_cons (c : Char) (rest : List Char) :
    issueNumsList (c :: rest)
      = (if c = '#' then
          if (rest.takeWhile Char.isDigit).isEmpty then issueNumsList rest
          else rest.takeWhile Char.isDigit
            :: issueNumsList (rest.dropWhile Char.isDigit)
        else issueNumsList rest) := by
  have hdw := length_dropWhile_digits_le rest
  rw [issueNumsList, List.length_cons, issueNumsGo]
  rw [issueNumsGo_congr rest.length rest.length rest (Nat.le_refl _) (Nat.le_refl _)]
  rw [show issueNumsGo rest.length (rest.dropWhile Char.isDigit)
      = issueNumsGo (rest.dropWhile Char.isDigit).length (rest.dropWhile Char.isDigit)
    from issueNumsGo_congr _ _ _ hdw (Nat.le_refl _)]
  rfl

/-- `ISSUE_NUMBER.sub` on a `String`. -/
def subIssue (s : String) : String := ⟨subIssueList s.data⟩

/-- `ISSUE_NUMBER.finditer` group captures on a `String`. -/
def issueNums (s : String) : List String := (issueNumsList s.data).map String.mk

/-- `links[key] = value` on a Python dict: insertion-ordered, an existing key
keeps its position and gets the new value, a new key is appended. -/
def dictInsert (d : List (String × String)) (k v : String) : List (String × String) :=
  if d.any (fun kv => kv.1 == k) then
    d.map (fun kv => if kv.1 == k then (k, v) else kv)
  else d ++ [(k, v)]

/-- The commit link target line of `format_rst_changelog`. -/
def commitLink (org repo sha : String) : String :=
  ".. _" ++ sha ++ ": https://github.com/" ++ org ++ "/" ++ repo ++ "/commit/" ++ sha

/-- The issue link target line of `format_rst_changelog`. -/
def issueLink (org repo num : String) : String :=
  ".. _#" ++ num ++ ": https://github.com/" ++ org ++ "/" ++ repo ++ "/issues/" ++ num

/-- The bullet line `"* `{sha}`_: {summary}"` with the summary already
rewritten by `ISSUE_NUMBER.sub`. -/
def bulletLine (entry : String × String) : String :=
  "* " ++ String.mk [backquote] ++ entry.1 ++ String.mk [backquote]
    ++ "_: " ++ subIssue entry.2

/-- The dict updates of one loop iteration of `format_rst_changelog`: record
the commit link target under the sha, then one issue link target per issue
reference found in the summary, under the issue number. -/
def stepLinks (org repo : String) (links : List (String × String))
    (entry : String × String) : List (String × String) :=
  (issueNums entry.2).foldl (fun d num => dictInsert d num (issueLink org repo num))
    (dictInsert links entry.1 (commitLink org repo entry.1))

/-- One iteration of the `for sha, summary in changelog` loop of
`format_rst_changelog`: record the link targets and append the bullet line. -/
def rstStep (org repo : String) (acc : List String × List (String × String))
    (entry : String × String) : List String × List (String × String) :=
  (acc.1 ++ [bulletLine entry], stepLinks org repo acc.2 entry)

/-- The loop of `format_rst_changelog`, started from the header lines and an
empty dict. -/
def rstFold (changelog : List (String × String)) (org repo : String) :
    List String × List (String × String) :=
  changelog.foldl (rstStep org repo) (headerLines, [])

/-- `format_rst_changelog(changelog, options)`. -/
def format_rst_changelog (changelog : List (String × String)) (org repo : String) :
    String :=
  joinWith "\n" ((rstFold changelog org repo).1 ++ [""]
    ++ (rstFold changelog org repo).2.map Prod.snd)

/-- `format_gh_changelog(changelog)` (its `links` dict is never written, so the
trailing `links.values()` contributes nothing). -/
def format_gh_changelog (changelog : List (String × String)) : String :=
  joinWith "\n" (headerLines
    ++ changelog.map (fun e => "* " ++ e.1 ++ ": " ++ e.2) ++ [""])

/-! ### C9: the changelog header -/

theorem rstFold_fst : ∀ (changelog : List (String × String)) (org repo : String)
    (out : List String) (links : List (String × String)),
    (changelog.foldl (rstStep org repo) (out, links)).1
      = out ++ changelog.map bulletLine := by
  intro changelog
  induction changelog with
  | nil => intro org repo out links; simp
  | cons e cl ih =>
    intro org repo out links
    rw [List.foldl_cons,
      show rstStep org repo (out, links) e
        = (out ++ [bulletLine e], stepLinks org repo links e) from rfl,
      ih org repo (out ++ [bulletLine e]) (stepLinks org repo links e)]
    simp

theorem joinWith_cons_cons (a b : String) (l : List String) :
    joinWith "\n" (a :: b :: l) = a ++ "\n" ++ joinWith "\n" (b :: l) := rfl

theorem header_begins (r : List String) (x : String) (xs : List String)
    (hr : r = x :: xs) :
    joinWith "\n"
        ("" :: "Changes since last version" :: "--------------------------" :: "" :: r)
      = CHANGELOG_HEADER ++ joinWith "\n" r := by
  subst hr
  rw [joinWith_cons_cons, joinWith_cons_cons, joinWith_cons_cons, joinWith_cons_cons,
    show CHANGELOG_HEADER
      = "" ++ "\n" ++ "Changes since last version" ++ "\n"
        ++ "--------------------------" ++ "\n" ++ "" ++ "\n" by decide]
  simp [← String.append_assoc]

/-- C9 counterexample: the very first character of a formatted changelog is a
newline (the `CHANGELOG_HEADER` literal starts with one), so the output does
not begin with the two-line header as its very first characters — shown here
for `format_gh_changelog` on the empty changelog. -/
theorem changelog_header_cex :
    format_gh_changelog []
        = "\nChanges since last version\n--------------------------\n\n"
    ∧ (format_gh_changelog []).data.head? = some '\n'
    ∧ ¬ (∃ t : String, format_gh_changelog []
        = "Changes since last version\n--------------------------\n\n" ++ t) := by
  refine ⟨by decide, by decide, ?_⟩
  rintro ⟨t, ht⟩
  have h1 : (format_gh_changelog []).data.head? = some '\n' := by decide
  rw [ht] at h1
  have h2 : ("Changes since last version\n--------------------------\n\n" ++ t).data.head?
      = some 'C' := by
    cases t with
    | mk d => rfl
  rw [h1] at h2
  simp at h2

/-- C9 (amended): for every changelog, the text produced by each of the two
formatters begins with a newline followed by the literal two-line header
`Changes since last version` underlined with dashes and a blank line — i.e.
the full `CHANGELOG_HEADER` literal `"\nChanges since last version\n`
`--------------------------\n\n"` is a prefix of the output; the header body
is thus preceded by one blank first line rather than standing at the very
first character. -/
theorem changelog_header_amended :
    CHANGELOG_HEADER = "\nChanges since last version\n--------------------------\n\n"
    ∧ (∀ (changelog : List (String × String)) (org repo : String),
        ∃ t, format_rst_changelog changelog org repo = CHANGELOG_HEADER ++ t)
    ∧ (∀ changelog : List (String × String),
        ∃ t, format_gh_changelog changelog = CHANGELOG_HEADER ++ t) := by
  refine ⟨rfl, ?_, ?_⟩
  · intro cl org repo
    have hout : (rstFold cl org repo).1 = headerLines ++ cl.map bulletLine :=
      rstFold_fst cl org repo headerLines []
    have hhl : headerLines
        = ["", "Changes since last version", "--------------------------", ""] := by decide
    refine ⟨joinWith "\n"
      (cl.map bulletLine ++ [""] ++ (rstFold cl org repo).2.map Prod.snd), ?_⟩
    rw [format_rst_changelog, hout, hhl]
    have hflat : ((["", "Changes since last version", "--------------------------", ""]
          ++ cl.map bulletLine) ++ [""] ++ (rstFold cl org repo).2.map Prod.snd)
        = ("" :: "Changes since last version" :: "--------------------------" :: ""
            :: (cl.map bulletLine ++ [""] ++ (rstFold cl org repo).2.map Prod.snd)) := by
      simp
    rw [hflat]
    cases hB : cl.map bulletLine with
    | nil =>
      exact header_begins _ "" ((rstFold cl org repo).2.map Prod.snd) (by simp [hB])
    | cons b bs =>
      exact header_begins _ b (bs ++ [""] ++ (rstFold cl org repo).2.map Prod.snd)
        (by simp [hB])
  · intro cl
    have hhl : headerLines
        = ["", "Changes since last version", "--------------------------", ""] := by decide
    refine ⟨joinWith "\n"
      (cl.map (fun e => "* " ++ e.1 ++ ": " ++ e.2) ++ [""]), ?_⟩
    rw [format_gh_changelog, hhl]
    have hflat : (["", "Changes since last version", "--------------------------", ""]
          ++ cl.map (fun e => "* " ++ e.1 ++ ": " ++ e.2) ++ [""])
        = ("" :: "Changes since last version" :: "--------------------------" :: ""
            :: (cl.map (fun e => "* " ++ e.1 ++ ": " ++ e.2) ++ [""])) := by
      simp
    rw [hflat]
    cases hB : cl.map (fun e => "* " ++ e.1 ++ ": " ++ e.2) with
    | nil => exact header_begins _ "" [] (by simp [hB])
    | cons b bs => exact header_begins _ b (bs ++ [""]) (by simp [hB])

/-! ### C8: link-target deduplication and issue-reference rewriting -/

/-- The keys of a links dict, in storage order. -/
def keysOf (d : List (String × String)) : List String := d.map Prod.fst

/-- The key stream written into the links dict by `format_rst_changelog`: for
each entry its sha, then the issue numbers of its summary, in loop order. -/
def allKeys (changelog : List (String × String)) : List String :=
  (changelog.map (fun e => e.1 :: issueNums e.2)).flatten

/-- Folding a key stream into a key set, keeping the first-seen position of
every key (the key-level effect of repeated Python dict assignment). -/
def insFold : List String → List String → List String
  | acc, [] => acc
  | acc, k :: ks => insFold (if k ∈ acc then acc else acc ++ [k]) ks

/-- First-seen deduplication with an accumulator of already seen keys. -/
def firstSeenAux (seen : List String) : List String → List String
  | [] => []
  | k :: ks =>
    if k ∈ seen then firstSeenAux seen ks
    else k :: firstSeenAux (seen ++ [k]) ks

/-- Keep the first occurrence of every key, in first-seen order. -/
def firstSeen (l : List String) : List String := firstSeenAux [] l

theorem keysOf_dictInsert (d : List (String × String)) (k v : String) :
    keysOf (dictInsert d k v)
      = if k ∈ keysOf d then keysOf d else keysOf d ++ [k] := by
  rw [dictInsert]
  by_cases hmem : k ∈ keysOf d
  · have hany : d.any (fun kv => kv.1 == k) = true := by
      rw [List.any_eq_true]
      obtain ⟨kv, hkv, hfst⟩ := List.mem_map.mp hmem
      exact ⟨kv, hkv, by simp [hfst]⟩
    rw [if_pos hany, if_pos hmem, keysOf, keysOf, List.map_map]
    apply List.map_congr_left
    intro kv _
    by_cases h : kv.1 = k
    · simp [h]
    · simp [h]
  · have hany : d.any (fun kv => kv.1 == k) = false := by
      rw [List.any_eq_false]
      intro kv hkv
      simp only [beq_iff_eq]
      intro h
      exact hmem (List.mem_map.mpr ⟨kv, hkv, h⟩)
    rw [if_neg (by rw [hany]; simp), if_neg hmem]
    simp [keysOf]

theorem keysOf_linkFold (nums : List String) (f : String → String)
    (d : List (String × String)) :
    keysOf (nums.foldl (fun d' num => dictInsert d' num (f num)) d)
      = insFold (keysOf d) nums := by
  induction nums generalizing d with
  | nil => rfl
  | cons n ns ih =>
    rw [List.foldl_cons, insFold, ih, keysOf_dictInsert]

theorem keysOf_stepLinks (org repo : String) (links : List (String × String))
    (e : String × String) :
    keysOf (stepLinks org repo links e)
      = insFold (keysOf links) (e.1 :: issueNums e.2) := by
  rw [stepLinks, keysOf_linkFold, insFold, keysOf_dictInsert]

theorem insFold_append (a b acc : List String) :
    insFold acc (a ++ b) = insFold (insFold acc a) b := by
  induction a generalizing acc with
  | nil => rfl
  | cons k ks ih => rw [List.cons_append, insFold, insFold, ih]

theorem keysOf_rstFold : ∀ (changelog : List (String × String)) (org repo : String)
    (out : List String) (links : List (String × String)),
    keysOf ((changelog.foldl (rstStep org repo) (out, links)).2)
      = insFold (keysOf links) (allKeys changelog) := by
  intro changelog
  induction changelog with
  | nil => intro org repo out links; rfl
  | cons e cl ih =>
    intro org repo out links
    rw [List.foldl_cons,
      show rstStep org repo (out, links) e
        = (out ++ [bulletLine e], stepLinks org repo links e) from rfl,
      ih org repo _ (stepLinks org repo links e), keysOf_stepLinks,
      show allKeys (e :: cl) = (e.1 :: issueNums e.2) ++ allKeys cl by
        simp [allKeys],
      insFold_append]

theorem insFold_eq_firstSeenAux : ∀ (ks acc : List String),
    insFold acc ks = acc ++ firstSeenAux acc ks := by
  intro ks
  induction ks with
  | nil => intro acc; simp [insFold, firstSeenAux]
  | cons k ks ih =>
    intro acc
    rw [insFold, firstSeenAux]
    by_cases h : k ∈ acc
    · rw [if_pos h, if_pos h, ih]
    · rw [if_neg h, if_neg h, ih]
      simp

theorem firstSeenAux_nodup : ∀ (ks seen : List String), seen.Nodup →
    (seen ++ firstSeenAux seen ks).Nodup := by
  intro ks
  induction ks with
  | nil => intro seen h; simpa [firstSeenAux] using h
  | cons k ks ih =>
    intro seen h
    rw [firstSeenAux]
    by_cases hk : k ∈ seen
    · rw [if_pos hk]
      exact ih seen h
    · rw [if_neg hk]
      have h' : (seen ++ [k]).Nodup := by
        rw [List.nodup_append]
        exact ⟨h, List.nodup_singleton k, by simpa using hk⟩
      have := ih (seen ++ [k]) h'
      simpa using this

/-- Whether `ISSUE_NUMBER.search` would find a match: some `#` followed by a
digit. -/
def hasIssueRef : List Char → Bool
  | [] => false
  | c :: rest =>
    if c = '#' then
      if (rest.takeWhile Char.isDigit).isEmpty then hasIssueRef rest else true
    else hasIssueRef rest

theorem subIssueList_id (l : List Char) (h : hasIssueRef l = false) :
    subIssueList l = l := by
  induction l with
  | nil => rfl
  | cons c rest ih =>
    rw [hasIssueRef] at h
    rw [subIssueList_cons]
    by_cases hc : c = '#'
    · rw [if_pos hc] at h ⊢
      by_cases he : (rest.takeWhile Char.isDigit).isEmpty
      · rw [if_pos he] at h ⊢
        rw [hc, ih h]
      · rw [if_neg he] at h
        exact absurd h (by simp)
    · rw [if_neg hc] at h ⊢
      rw [ih h]

theorem takeWhile_digits_append (ds b : List Char)
    (hall : ∀ c ∈ ds, c.isDigit = true) (hb : headDigit b = false) :
    (ds ++ b).takeWhile Char.isDigit = ds
    ∧ (ds ++ b).dropWhile Char.isDigit = b := by
  induction ds with
  | nil =>
    simp only [List.nil_append]
    cases b with
    | nil => exact ⟨rfl, rfl⟩
    | cons x b' =>
      have hx : x.isDigit = false := by simpa [headDigit] using hb
      rw [List.takeWhile_cons, List.dropWhile_cons]
      simp [hx]
  | cons d ds' ih =>
    have hd : d.isDigit = true := hall d (by simp)
    obtain ⟨h1, h2⟩ := ih (fun c hc => hall c (by simp [hc]))
    rw [List.cons_append, List.takeWhile_cons, List.dropWhile_cons]
    simp only [hd, if_pos]
    exact ⟨by rw [h1], by rw [h2]⟩

theorem subIssueList_insert (a ds b : List Char) (ha : hasIssueRef a = false)
    (hds : ds ≠ []) (hall : ∀ c ∈ ds, c.isDigit = true)
    (hb : headDigit b = false) :
    subIssueList (a ++ '#' :: (ds ++ b))
      = a ++ backquote :: '#' :: (ds ++ backquote :: '_' :: subIssueList b) := by
  induction a with
  | nil =>
    simp only [List.nil_append]
    rw [subIssueList_cons, if_pos rfl]
    obtain ⟨htw, hdw⟩ := takeWhile_digits_append ds b hall hb
    rw [htw, hdw]
    cases ds with
    | nil => exact absurd rfl hds
    | cons d ds' => rw [if_neg (by simp)]
  | cons c a' ih =>
    rw [hasIssueRef] at ha
    rw [List.cons_append, subIssueList_cons]
    by_cases hc : c = '#'
    · rw [if_pos hc] at ha ⊢
      have ha' : (a'.takeWhile Char.isDigit).isEmpty = true ∧ hasIssueRef a' = false := by
        by_cases he : (a'.takeWhile Char.isDigit).isEmpty
        · exact ⟨he, by rwa [if_pos he] at ha⟩
        · rw [if_neg he] at ha
          exact absurd ha (by simp)
      have hemp : ((a' ++ '#' :: (ds ++ b)).takeWhile Char.isDigit).isEmpty = true := by
        cases a' with
        | nil =>
          rw [List.nil_append, List.takeWhile_cons]
          simp [show ('#' : Char).isDigit = false by decide]
        | cons x a'' =>
          have hx : x.isDigit = false := by
            by_contra hx'
            rw [List.takeWhile_cons] at ha'
            simp only [Bool.not_eq_false] at hx'
            rw [if_pos hx'] at ha'
            simp at ha'
          rw [List.cons_append, List.takeWhile_cons]
          simp [hx]
      rw [if_pos hemp, hc, ih ha'.2]
      simp
    · rw [if_neg hc] at ha ⊢
      rw [ih ha]
      simp

/-- C8: in `format_rst_changelog`, (1) the keys of the link-target section are
exactly the first occurrences, in first-seen order, of the key stream (each
entry's sha followed by the issue numbers of its summary), with no key
repeated even when a sha or issue number recurs across entries; (2) the bullet
list consists of one line per entry whose summary went through the
issue-reference rewrite; (3) the rewrite leaves a summary without issue
references unchanged, and (4) rewrites an occurrence `#<digits>` into the
cross-reference markup while keeping all surrounding characters unchanged. -/
theorem rst_links_dedup_and_rewrite :
    (∀ (changelog : List (String × String)) (org repo : String),
      keysOf ((rstFold changelog org repo).2) = firstSeen (allKeys changelog)
      ∧ (keysOf ((rstFold changelog org repo).2)).Nodup
      ∧ (rstFold changelog org repo).1 = headerLines ++ changelog.map bulletLine)
    ∧ (∀ l : List Char, hasIssueRef l = false → subIssueList l = l)
    ∧ (∀ a ds b : List Char, hasIssueRef a = false → ds ≠ [] →
        (∀ c ∈ ds, c.isDigit = true) → headDigit b = false →
        subIssueList (a ++ '#' :: (ds ++ b))
          = a ++ backquote :: '#' :: (ds ++ backquote :: '_' :: subIssueList b)) := by
  refine ⟨?_, subIssueList_id, subIssueList_insert⟩
  intro changelog org repo
  have hkeys : keysOf ((rstFold changelog org repo).2)
      = firstSeen (allKeys changelog) := by
    rw [rstFold, keysOf_rstFold, show keysOf [] = [] from rfl,
      insFold_eq_firstSeenAux, firstSeen]
    simp
  refine ⟨hkeys, ?_, rstFold_fst changelog org repo headerLines []⟩
  rw [hkeys, firstSeen]
  simpa using firstSeenAux_nodup (allKeys changelog) [] List.nodup_nil

/-- Witness for C8 at concrete inputs: a recurring issue number (`#42` in both
summaries) yields a single key, and a concrete summary decomposition is
rewritten in place. -/
theorem rst_links_dedup_and_rewrite_witness :
    keysOf ((rstFold [("abc1234", "Fix #42"), ("def5678", "Also #42 and #9")]
        "acme" "widget").2)
      = firstSeen (allKeys [("abc1234", "Fix #42"), ("def5678", "Also #42 and #9")])
    ∧ subIssueList ("Fix ".toList ++ '#' :: ("42".toList ++ " now".toList))
      = "Fix ".toList ++ backquote :: '#' :: ("42".toList ++ backquote :: '_'
          :: subIssueList " now".toList) := by
  exact ⟨(rst_links_dedup_and_rewrite.1
      [("abc1234", "Fix #42"), ("def5678", "Also #42 and #9")] "acme" "widget").1,
    rst_links_dedup_and_rewrite.2.2 "Fix ".toList "42".toList " now".toList
      (by decide) (by decide) (by decide) (by decide)⟩

/-! ### C6: the changelog builder over a git commit DAG -/

/-- A commit of the model repository: its hex object name, its full message
(the summary is the first line), and its parents as indices into the commit
list. Commits are listed oldest first; a parent always has a smaller index
than its child, and a larger index means a newer commit. -/
structure Commit where
  sha : String
  message : String
  parents : List Nat
deriving DecidableEq

/-- An annotated release tag of the model repository (`git describe` used
without `--tags`, as `generate_changelog` does, only ever reports annotated
tags). -/
structure TagRef where
  name : String
  target : Nat
deriving DecidableEq

/-- The git object database consulted by `Repository.generate_changelog`. -/
structure GitRepo where
  commits : List Commit
  tags : List TagRef
deriving DecidableEq

/-- Ancestor-or-self reachability along parent edges, with recursion fuel (in
a well-formed repository parents have strictly smaller indices, so fuel
`commits.length + 1` as passed by `reachable` always suffices). -/
def reachAux (cs : List Commit) : Nat → Nat → Nat → Bool
  | 0, _, _ => false
  | fuel + 1, a, b =>
    a == b ||
      (match cs[a]? with
       | some c => c.parents.any (fun p => reachAux cs fuel p b)
       | none => false)

/-- `b` is `a` itself or an ancestor of `a`. -/
def reachable (repo : GitRepo) (a b : Nat) : Bool :=
  reachAux repo.commits (repo.commits.length + 1) a b

/-- The commit denoted by a rev-parsed object (a tag object peels to its
target commit when used in a commit range). -/
def objTarget : GitObject → Nat
  | .tagObj _ t => t
  | .commitObj i => i

/-- `<rev>^`: the first parent, `none` when the commit has no parent (in which
case git raises `GitCommandError`). -/
def firstParent (repo : GitRepo) (i : Nat) : Option Nat :=
  match repo.commits[i]? with
  | some c => c.parents.head?
  | none => none

/-- `git describe <commit> --abbrev=0`: the nearest tag whose target is
reachable from the commit — modelled as the newest (largest-index) reachable
tagged commit — or `none` when no tag is reachable (git raises
`GitCommandError`). -/
def describeFrom (repo : GitRepo) (c : Nat) : Option TagRef :=
  (repo.tags.filter (fun t => reachable repo c t.target)).foldl
    (fun best t =>
      match best with
      | none => some t
      | some b => if b.target < t.target then some t else some b) none

/-- The `try: describe("{current}^", abbrev=0); rev_parse(...) except
GitCommandError: THE_NULL_COMMIT` block of `generate_changelog`: the lower
range bound is the previous tag's commit, or `none` — the empty-tree sentinel,
below all history — when the current commit has no parent or no tag is
reachable from it. -/
def previousEnd (repo : GitRepo) (cur : GitObject) : Option Nat :=
  match firstParent repo (objTarget cur) with
  | none => none
  | some p =>
    match describeFrom repo p with
    | none => none
    | some t => some t.target

/-- Whether `i` is cut away by the lower range bound: reachable from the
previous commit when there is one (the empty-tree sentinel reaches nothing). -/
def belowRange (repo : GitRepo) (prev : Option Nat) (i : Nat) : Bool :=
  match prev with
  | some p => reachable repo p i
  | none => false

/-- `repo.iter_commits("{previous}..{current}")`: the commits reachable from
`current` but not from `previous`, newest first (the empty-tree sentinel
reaches nothing, so `none` yields all history up to `current`). -/
def iterCommits (repo : GitRepo) (prev : Option Nat) (cur : Nat) : List Nat :=
  ((List.range repo.commits.length).reverse).filter (fun i =>
    reachable repo cur i && !belowRange repo prev i)

/-- The first `k` characters of a string. -/
def strTake (s : String) (k : Nat) : String := ⟨s.data.take k⟩

/-- Whether a prefix of length `k` of `sha` also begins some other object's
name. -/
def ambiguousAt (repo : GitRepo) (sha : String) (k : Nat) : Bool :=
  repo.commits.any (fun c => c.sha != sha && strTake c.sha k == strTake sha k)

/-- `Repository._shorten`, i.e. `git rev-parse --short`: the shortest prefix,
of length at least 7, that is unambiguous within the repository. -/
def shorten (repo : GitRepo) (sha : String) : String :=
  match (List.range (sha.data.length + 1)).find?
      (fun k => decide (7 ≤ k) && !ambiguousAt repo sha k) with
  | some k => strTake sha k
  | none => sha

/-- `commit.summary`: the first line of the commit message. -/
def summaryOf (c : Commit) : String := ⟨c.message.data.takeWhile (fun ch => ch != '\n')⟩

/-- `Repository.generate_changelog`: one `(short-sha, summary)` pair for every
commit with at most one parent delivered by `iter_commits` over the range from
the previous tag (or the empty-tree sentinel) up to the current tag. -/
def generate_changelog (repo : GitRepo) (cur : GitObject) : List (String × String) :=
  (((iterCommits repo (previousEnd repo cur) (objTarget cur)).filterMap
      (fun i => repo.commits[i]?)).filter
    (fun c => decide (c.parents.length ≤ 1))).map
      (fun c => (shorten repo c.sha, summaryOf c))

/-- The claim's description of the changelog: walking all commits newest
first, keep exactly those that are in the exclusive-inclusive range
`(previous, current]` — reachable from the current tag's commit but not from
the previous tag's commit, where `previous` is the nearest ancestor tag
strictly before the current tag or the empty-tree sentinel when none exists —
and have at most one parent, each contributing its short hash and first
message line. -/
def entryOf (repo : GitRepo) (cur : GitObject) (i : Nat) : Option (String × String) :=
  match repo.commits[i]? with
  | some c =>
    if (reachable repo (objTarget cur) i && !belowRange repo (previousEnd repo cur) i)
        && decide (c.parents.length ≤ 1) then
      some (shorten repo c.sha, summaryOf c)
    else none
  | none => none

/-- The claim's changelog, assembled per commit index: walking all commits
newest first, keep `entryOf` of each. -/
def specEntries (repo : GitRepo) (cur : GitObject) : List (String × String) :=
  ((List.range repo.commits.length).reverse).filterMap (entryOf repo cur)

theorem spec_pipeline (repo : GitRepo) (cur : GitObject) : ∀ l : List Nat,
    ((((l.filter (fun i => reachable repo (objTarget cur) i
          && !belowRange repo (previousEnd repo cur) i)).filterMap
        (fun i => repo.commits[i]?)).filter
      (fun c => decide (c.parents.length ≤ 1))).map
        (fun c => (shorten repo c.sha, summaryOf c)))
      = l.filterMap (entryOf repo cur) := by
  intro l
  induction l with
  | nil => rfl
  | cons i l ih =>
    rw [List.filter_cons, List.filterMap_cons]
    cases hg : repo.commits[i]? with
    | none =>
      by_cases hp : (reachable repo (objTarget cur) i
          && !belowRange repo (previousEnd repo cur) i) = true
      · simp [entryOf, hg, hp, List.filterMap_cons, ih]
      · simp [entryOf, hg, hp, ih]
    | some c =>
      by_cases hp : (reachable repo (objTarget cur) i
          && !belowRange repo (previousEnd repo cur) i) = true
      · by_cases hq : c.parents.length ≤ 1
        · simp [entryOf, hg, hp, hq, List.filterMap_cons, List.filter_cons, ih]
        · simp [entryOf, hg, hp, hq, List.filterMap_cons, List.filter_cons, ih]
      · simp [entryOf, hg, hp, ih]

theorem generate_changelog_eq_spec (repo : GitRepo) (cur : GitObject) :
    generate_changelog repo cur = specEntries repo cur := by
  rw [generate_changelog, specEntries, iterCommits]
  exact spec_pipeline repo cur (List.range repo.commits.length).reverse

/-- The example repository of the claim: X ← A ← B ← C on the first-parent
line, where B is a merge commit (two parents), A carries annotated tag
`v1.0.0` and C carries annotated tag `v1.1.0`. -/
def exRepo : GitRepo :=
  { commits :=
      [ ⟨"aaaaaaaaaa01", "Initial commit", []⟩,
        ⟨"bbbbbbbbbb02", "Feature A", [0]⟩,
        ⟨"cccccccccc03", "Merge branch chore", [1, 0]⟩,
        ⟨"dddddddddd04", "Fix bug #42", [2]⟩ ],
    tags := [⟨"v1.0.0", 1⟩, ⟨"v1.1.0", 3⟩] }

/-- C6: `generate_changelog` returns, newest first, one
`(short-hash, first-line-summary)` entry for exactly the commits with at most
one parent in the exclusive-inclusive range `(previous, current]`, where
`previous` is the nearest ancestor tag strictly before the current tag or the
empty-tree sentinel when no such tag exists; in particular on the example
repository A (tag v1.0.0) ← B (merge) ← C (tag v1.1.0), anchored at `v1.1.0`,
the previous tag resolves to `v1.0.0`'s commit and the changelog is exactly
`[C]` (B dropped as a merge, A out of range). -/
theorem changelog_range_and_merge_filter :
    (∀ (repo : GitRepo) (cur : GitObject),
      generate_changelog repo cur = specEntries repo cur)
    ∧ generate_changelog exRepo (.tagObj "v1.1.0" 3) = [("ddddddd", "Fix bug #42")]
    ∧ previousEnd exRepo (.tagObj "v1.1.0" 3) = some 1
    ∧ (exRepo.commits[2]?).map (fun c => c.parents.length) = some 2 := by
  exact ⟨generate_changelog_eq_spec, by decide, by decide, by decide⟩

/-! ### C3, C4, C5, C7: artifacts, uploads and the orchestrator -/

/-- Observable side effects of a run: spawned subprocesses, stdout/stderr
prints, temp-file operations, and the call into the external release-host
client (`gh_release_create`, which receives the dry-run flag and performs no
subprocess spawn itself). -/
inductive Effect where
  | spawn (cmd : List String)
  | printOut (msg : String)
  | printErr (msg : String)
  | mkstemp (name : String)
  | writeFile (name : String) (content : String)
  | unlink (name : String)
  | ghCreate (repo tag body : String) (dryRun : Bool)
deriving DecidableEq

/-- Python `repr` of a string (as used for the dry-run command line). -/
def pyRepr (s : String) : String := "'" ++ s ++ "'"

/-- `Uploader._call`: under dry run print the command line instead of running
it; otherwise run it (`spawnOk` is whether `subprocess.check_call` succeeds —
on failure the message is printed to stderr and the `CalledProcessError` is
re-raised, the `false` component). -/
def uploaderCall (dryRun spawnOk : Bool) (args : List String) (msg : String) :
    List Effect × Bool :=
  if dryRun then
    ([.printOut ("Dry run. Would have called: " ++ joinWith " " (args.map pyRepr))],
      true)
  else if spawnOk then ([.spawn args], true)
  else ([.spawn args, .printErr msg], false)

/-- The build command of `create_artifacts` (`sys.executable setup.py
egg_info --tag-build= sdist bdist_wheel --universal`). -/
def buildCmd : List String :=
  ["python", "setup.py", "egg_info", "--tag-build=", "sdist", "bdist_wheel",
    "--universal"]

/-- `create_artifacts`: write the rendered index changelog to the temp file,
run the build via `subprocess.check_call` (unconditionally — the function
never consults the dry-run flag), and only on build success unlink the temp
file and list the dist files; on build failure the `CalledProcessError`
propagates (`none`) and the unlink is never reached. -/
def create_artifacts (changelog : List (String × String)) (org repo : String)
    (tmpName : String) (buildOk : Bool) (distFiles : List String) :
    List Effect × Option (List String) :=
  let pre : List Effect :=
    [.mkstemp tmpName, .writeFile tmpName (format_rst_changelog changelog org repo),
      .spawn buildCmd]
  if buildOk then
    (pre ++ [.unlink tmpName], some (distFiles.map (fun f => "dist/" ++ f)))
  else (pre, none)

/-- `Repository.version`: `str(tag.tag)` for an annotated tag object, else
`str(tag)` (the commit's hex name, or `"None"` when nothing resolved). -/
def versionOf (repo : GitRepo) (st : RepoState) : String :=
  match st.currentTag with
  | some (.tagObj n _) => n
  | some (.commitObj i) =>
    match repo.commits[i]? with
    | some c => c.sha
    | none => ""
  | none => "None"

/-- `Uploader.github_release`: one call into the external client with the
release-flavoured changelog body and the dry-run flag; `ghOk` is whether the
call raises the exception type the orchestrator catches. -/
def githubRelease (org repo version : String) (changelog : List (String × String))
    (dryRun ghOk : Bool) : List Effect × Bool :=
  ([.ghCreate (org ++ "/" ++ repo) version (format_gh_changelog changelog) dryRun],
    ghOk)

/-- `Uploader.pypi_release`: `twine upload <artifacts>` through `_call`. -/
def pypiRelease (dryRun twineOk : Bool) (artifacts : List String) :
    List Effect × Bool :=
  uploaderCall dryRun twineOk (["twine", "upload"] ++ artifacts)
    "Failed to upload artifacts to PyPI"

/-- The parsed command line options of `main`. -/
structure Options where
  force : Bool
  dryRun : Bool
  organization : String
  repository : String
deriving DecidableEq

/-- Outcomes of the three external calls of a run: the packaging build, the
release-host upload, the index upload. -/
structure WorldOutcomes where
  buildOk : Bool
  ghOk : Bool
  twineOk : Bool
deriving DecidableEq

/-- `publish(options)`: validate, build the changelog, build artifacts (a
build failure propagates and aborts the run — `Except.error`), then attempt
both uploads unconditionally, folding each failure into its own bit of the
return code (`pow(2, i)` for upload `i`). -/
def publishRun (opts : Options) (repo : GitRepo) (st : RepoState)
    (w : WorldOutcomes) (tmpName : String) (distFiles : List String) :
    List Effect × Except Unit Nat :=
  let ready := readyForRelease opts.force st
  if ready.1 then
    let changelog :=
      match st.currentTag with
      | some cur => generate_changelog repo cur
      | none => []
    match create_artifacts changelog opts.organization opts.repository tmpName
        w.buildOk distFiles with
    | (tr, none) => (ready.2.map Effect.printErr ++ tr, .error ())
    | (tr, some artifacts) =>
      let g := githubRelease opts.organization opts.repository (versionOf repo st)
        changelog opts.dryRun w.ghOk
      let p := pypiRelease opts.dryRun w.twineOk artifacts
      (ready.2.map Effect.printErr ++ tr ++ g.1 ++ p.1,
        .ok ((if g.2 then 0 else 1) ||| (if p.2 then 0 else 2)))
  else
    (ready.2.map Effect.printErr ++ [.printErr "Repository is not ready for release"],
      .ok 1)

/-- C5: the temp changelog file is unlinked only on the successful exit path
of the build step; when the external build raises (no `try/finally` guards the
`os.unlink`), the exception propagates before the unlink, leaving the file
behind — while a successful build does unlink it. -/
theorem tmpfile_leak_on_build_failure :
    Effect.unlink "/tmp/changelogx.rst"
        ∉ (create_artifacts [] "acme" "widget" "/tmp/changelogx.rst" false []).1
    ∧ (create_artifacts [] "acme" "widget" "/tmp/changelogx.rst" false []).2 = none
    ∧ Effect.unlink "/tmp/changelogx.rst"
        ∈ (create_artifacts [] "acme" "widget" "/tmp/changelogx.rst" true []).1 := by
  exact ⟨by decide, by decide, by decide⟩

/-- C3 counterexample: with `dry_run` set, the run still spawns the external
packaging build process (`create_artifacts` never consults the dry-run flag),
so "no external process is actually spawned in a dry run" is false. -/
theorem dry_run_build_spawn_cex :
    Effect.spawn buildCmd
      ∈ (publishRun ⟨false, true, "acme", "widget"⟩ exRepo
          ⟨false, [], some (.tagObj "v1.1.0" 3)⟩ ⟨true, true, true⟩
          "/tmp/changelogx.rst" ["publish-1.1.0.tar.gz"]).1 := by
  decide

/-- C3 (amended): with `dry_run` set, the two uploads are suppressed — the
`twine` invocation is replaced by printing the command line that would have
run, and the release-host client is invoked with its dry-run flag — but the
packaging build still spawns its external process on every run that reaches
it; the build spawn is the only subprocess of a dry run. -/
theorem dry_run_amended :
    (∀ (ok : Bool) (args : List String) (msg : String),
      uploaderCall true ok args msg
        = ([.printOut ("Dry run. Would have called: "
            ++ joinWith " " (args.map pyRepr))], true))
    ∧ (∀ (changelog : List (String × String)) (org repo tmpName : String)
        (ok : Bool) (distFiles : List String),
        Effect.spawn buildCmd
          ∈ (create_artifacts changelog org repo tmpName ok distFiles).1)
    ∧ (∀ (opts : Options) (repo : GitRepo) (st : RepoState) (w : WorldOutcomes)
        (tmpName : String) (distFiles : List String) (cmd : List String),
        opts.dryRun = true →
        Effect.spawn cmd ∈ (publishRun opts repo st w tmpName distFiles).1 →
        cmd = buildCmd) := by
  refine ⟨fun ok args msg => rfl, ?_, ?_⟩
  · intro changelog org repo tmpName ok distFiles
    rw [create_artifacts]
    cases ok <;> simp
  · intro opts repo st w tmpName distFiles cmd hdry hmem
    by_cases hready : (readyForRelease opts.force st).1
    · cases hb : w.buildOk
      · simp [publishRun, hready, create_artifacts, hb] at hmem
        exact hmem
      · simp [publishRun, hready, create_artifacts, hb, githubRelease,
          pypiRelease, uploaderCall, hdry] at hmem
        exact hmem
    · simp [publishRun, hready] at hmem

/-- C7: on a run that passes validation and whose build succeeds, both upload
calls appear in the trace whatever the outcome of the other (the release-host
call and the `twine upload` spawn when not a dry run); every upload failure of
the caught exception type is folded into the returned code instead of
propagating (`Except.ok`), and the code has bit 0 set exactly when the
release-host upload failed and bit 1 set exactly when the index upload
failed. -/
theorem upload_bitmask (opts : Options) (repo : GitRepo) (st : RepoState)
    (w : WorldOutcomes) (tmpName : String) (distFiles : List String)
    (hready : (readyForRelease opts.force st).1 = true)
    (hbuild : w.buildOk = true) (hdry : opts.dryRun = false) :
    (∃ body, Effect.ghCreate (opts.organization ++ "/" ++ opts.repository)
        (versionOf repo st) body opts.dryRun
        ∈ (publishRun opts repo st w tmpName distFiles).1)
    ∧ (Effect.spawn (["twine", "upload"] ++ distFiles.map (fun f => "dist/" ++ f))
        ∈ (publishRun opts repo st w tmpName distFiles).1)
    ∧ (publishRun opts repo st w tmpName distFiles).2
        = .ok ((if w.ghOk then 0 else 1) ||| (if w.twineOk then 0 else 2))
    ∧ (∀ code, (publishRun opts repo st w tmpName distFiles).2 = .ok code →
        code.testBit 0 = !w.ghOk ∧ code.testBit 1 = !w.twineOk) := by
  have hrun : publishRun opts repo st w tmpName distFiles
      = ((readyForRelease opts.force st).2.map Effect.printErr
          ++ ([.mkstemp tmpName,
               .writeFile tmpName
                 (format_rst_changelog
                   (match st.currentTag with
                    | some cur => generate_changelog repo cur
                    | none => []) opts.organization opts.repository),
               .spawn buildCmd] ++ [.unlink tmpName])
          ++ [Effect.ghCreate (opts.organization ++ "/" ++ opts.repository)
               (versionOf repo st)
               (format_gh_changelog
                 (match st.currentTag with
                  | some cur => generate_changelog repo cur
                  | none => [])) opts.dryRun]
          ++ (pypiRelease opts.dryRun w.twineOk
               (distFiles.map (fun f => "dist/" ++ f))).1,
        .ok ((if w.ghOk then 0 else 1) ||| (if w.twineOk then 0 else 2))) := by
    rw [publishRun]
    simp only [hready, if_pos, create_artifacts, hbuild, if_true, githubRelease]
    have hp2 : (pypiRelease opts.dryRun w.twineOk
        (List.map (fun f => "dist/" ++ f) distFiles)).2 = w.twineOk := by
      rw [pypiRelease, uploaderCall, if_neg (by simp [hdry])]
      cases w.twineOk <;> simp
    rw [hp2]
  refine ⟨?_, ?_, ?_, ?_⟩
  · refine ⟨format_gh_changelog
      (match st.currentTag with
       | some cur => generate_changelog repo cur
       | none => []), ?_⟩
    rw [hrun]
    simp
  · rw [hrun]
    have : (pypiRelease opts.dryRun w.twineOk
        (distFiles.map (fun f => "dist/" ++ f))).1.head?
        = some (Effect.spawn (["twine", "upload"]
            ++ distFiles.map (fun f => "dist/" ++ f))) := by
      rw [pypiRelease, uploaderCall, if_neg (by simp [hdry])]
      cases w.twineOk <;> simp
    simp only [List.mem_append]
    right
    cases hp : (pypiRelease opts.dryRun w.twineOk
        (distFiles.map (fun f => "dist/" ++ f))).1 with
    | nil => rw [hp] at this; simp at this
    | cons e es =>
      rw [hp] at this
      simp only [List.head?_cons, Option.some.injEq] at this
      simp [this]
  · rw [hrun]
  · intro code hcode
    rw [hrun] at hcode
    simp only [Except.ok.injEq] at hcode
    subst hcode
    cases hg : w.ghOk <;> cases ht : w.twineOk <;> decide

/-- Witness for C7 at concrete inputs: release-host upload fails, index upload
succeeds, the run returns code 1. -/
theorem upload_bitmask_witness :
    (∃ body, Effect.ghCreate ("acme" ++ "/" ++ "widget")
        (versionOf exRepo ⟨false, [], some (.tagObj "v1.1.0" 3)⟩) body false
        ∈ (publishRun ⟨false, false, "acme", "widget"⟩ exRepo
            ⟨false, [], some (.tagObj "v1.1.0" 3)⟩ ⟨true, false, true⟩
            "/tmp/changelogx.rst" ["publish-1.1.0.tar.gz"]).1)
    ∧ (publishRun ⟨false, false, "acme", "widget"⟩ exRepo
        ⟨false, [], some (.tagObj "v1.1.0" 3)⟩ ⟨true, false, true⟩
        "/tmp/changelogx.rst" ["publish-1.1.0.tar.gz"]).2
        = .ok ((if false then 0 else 1) ||| (if true then 0 else 2)) := by
  have h := upload_bitmask ⟨false, false, "acme", "widget"⟩ exRepo
    ⟨false, [], some (.tagObj "v1.1.0" 3)⟩ ⟨true, false, true⟩
    "/tmp/changelogx.rst" ["publish-1.1.0.tar.gz"] (by decide) rfl rfl
  exact ⟨h.1, h.2.2.1⟩

/-- Modelled from the spec: the eager release-host access-token check. It is
not part of `src/publish.py` — it happens inside the imported release-host
client package, which `publish.py` pulls in at interpreter start-up via its
top-level import — so it is modelled here from the spec's words: if the
`GITHUB_TOKEN` environment variable is absent, print a message instructing
the operator how to set it and exit the process with code 3, before any
validation, changelog, build or upload work. -/
def tokenCheck (env : List (String × String)) :
    Option (List Effect × Except Unit Nat) :=
  if (env.lookup "GITHUB_TOKEN").isNone then
    some ([.printErr "GITHUB_TOKEN must be set to a token with access to the repository"],
      .ok 3)
  else none

/-- The whole process: the import-time token check gates everything; only when
it passes does `main` reach `publish`. -/
def mainRun (env : List (String × String)) (opts : Options) (repo : GitRepo)
    (st : RepoState) (w : WorldOutcomes) (tmpName : String)
    (distFiles : List String) : List Effect × Except Unit Nat :=
  match tokenCheck env with
  | some r => r
  | none => publishRun opts repo st w tmpName distFiles

/-- C4: when the release-host access token is absent from the environment, the
process prints the instructive message and exits with code 3, with no
validation, build or upload effect of any kind in its trace. -/
theorem missing_token_exits_3 (env : List (String × String)) (opts : Options)
    (repo : GitRepo) (st : RepoState) (w : WorldOutcomes) (tmpName : String)
    (distFiles : List String) (h : env.lookup "GITHUB_TOKEN" = none) :
    mainRun env opts repo st w tmpName distFiles
      = ([.printErr "GITHUB_TOKEN must be set to a token with access to the repository"],
          .ok 3) := by
  rw [mainRun, tokenCheck, h]
  rfl

/-- Witness for C4 at the empty environment. -/
theorem missing_token_exits_3_witness :
    mainRun [] ⟨false, false, "acme", "widget"⟩ exRepo
        ⟨false, [], some (.tagObj "v1.1.0" 3)⟩ ⟨true, true, true⟩
        "/tmp/changelogx.rst" []
      = ([.printErr "GITHUB_TOKEN must be set to a token with access to the repository"],
          .ok 3) :=
  missing_token_exits_3 [] ⟨false, false, "acme", "widget"⟩ exRepo
    ⟨false, [], some (.tagObj "v1.1.0" 3)⟩ ⟨true, true, true⟩
    "/tmp/changelogx.rst" [] rfl

/-- Witness for C3 at concrete inputs: the build spawn is present even on a
failing dry-run build, and a concrete spawned command of a dry run is the
build command. -/
theorem dry_run_amended_witness :
    Effect.spawn buildCmd
      ∈ (create_artifacts [] "acme" "widget" "/tmp/changelogx.rst" false []).1
    ∧ buildCmd = buildCmd :=
  ⟨dry_run_amended.2.1 [] "acme" "widget" "/tmp/changelogx.rst" false [],
    dry_run_amended.2.2 ⟨false, true, "acme", "widget"⟩ exRepo
      ⟨false, [], some (.tagObj "v1.1.0" 3)⟩ ⟨true, true, true⟩
      "/tmp/changelogx.rst" ["publish-1.1.0.tar.gz"] buildCmd rfl (by decide)⟩

end Publish
